import Mathlib

/-!
Verification of the custom sliding-window-log rate limiter
(`customRedisRateLimiter` in `src/rateLimiter.js`).

The middleware is embedded shallowly:

* A stored log entry `{requestTimeStamp, requestCount}` becomes `Bucket`.
* The fixed constants `WINDOW_SIZE_IN_HOURS = 24`, `MAX_WINDOW_REQUEST_COUNT
  = 110`, `WINDOW_LOG_INTERVAL_IN_HOURS = 1` become a `Config` record holding
  the corresponding second counts (moment's `subtract(n, 'hours')` shifts the
  unix timestamp by `n * 3600` seconds); `defaultConfig` matches the source.
* Timestamps are `Int` (unix seconds; JS numbers never truncate at zero).
* The Redis store is an association list from keys (`req.ip`) to logs;
  `getAsync` is `List.lookup`, `setAsync` is `storeSet` (SET replaces the
  whole value).
* The three observable outcomes of the middleware are `Outcome.allowed`
  (`next()` after a successful write), `Outcome.denied` (the 429 response)
  and `Outcome.errored` (`next(error)` from the catch block).

One behaviour of the source deserves a note, because several theorems below
hinge on it: `moment#subtract` mutates the moment object in place, so after
line 69 of the source (`currentRequestTime.subtract(WINDOW_LOG_INTERVAL_IN_HOURS,
'hours')`) the variable `currentRequestTime` holds `now - 3600` seconds, and
the entry pushed on line 75-78 therefore carries `requestTimeStamp = now -
compactionInterval`, not `now`.  The embedding reproduces this faithfully.
-/

namespace RateLimiterSpec

/-- Entry of the stored log, `{requestTimeStamp, requestCount}` in the JSON
stored under the client key. -/
structure Bucket where
  requestTimeStamp : Int
  requestCount : Int
deriving DecidableEq, Repr

/-- Configuration constants of the limiter, in seconds / request counts.
The source fixes them to 24 hours, 110 requests, 1 hour. -/
structure Config where
  windowSize : Int := 86400
  maxRequests : Int := 110
  compactionInterval : Int := 3600

/-- Constants exactly as in `src/rateLimiter.js` (24 h window, 110 requests,
1 h compaction interval). -/
def defaultConfig : Config := {}

/-- Result of evaluating an existing (parsed) record: the 429 branch, the
`next(error)` branch (reached when `data[data.length - 1]` is `undefined`,
i.e. the parsed array is empty, making the field access throw), or the
allow branch carrying the mutated log that is written back. -/
inductive RecordResult where
  | denied
  | errored
  | allowed (newLog : List Bucket)
deriving DecidableEq, Repr

/-- Observable outcome of one middleware call: `next()` (request admitted),
the 429 rejection, or `next(error)`. -/
inductive Outcome where
  | allowed
  | denied
  | errored
deriving DecidableEq, Repr

/-- Lines 57-81 of the source: the computation performed when a record was
found, from `JSON.parse` result to the value passed to `setAsync` (or the
429 / thrown-error outcomes).  The pushed entry in the final branch carries
`now - compactionInterval` because `moment#subtract` mutated
`currentRequestTime` in place when computing the cutoff. -/
def evalRecord (cfg : Config) (data : List Bucket) (now : Int) : RecordResult :=
  let windowStartTimestamp := now - cfg.windowSize
  let requestsWithinWindow := data.filter (fun entry => windowStartTimestamp < entry.requestTimeStamp)
  let totalWindowRequestsCount := requestsWithinWindow.foldl (fun accumulator entry => accumulator + entry.requestCount) 0
  if cfg.maxRequests ≤ totalWindowRequestsCount then
    .denied
  else
    match data.getLast? with
    | none => .errored
    | some lastRequestLog =>
      let potentialCurrentWindowIntervalStartTimeStamp := now - cfg.compactionInterval
      if potentialCurrentWindowIntervalStartTimeStamp < lastRequestLog.requestTimeStamp then
        .allowed (data.dropLast ++ [{ lastRequestLog with requestCount := lastRequestLog.requestCount + 1 }])
      else
        .allowed (data ++ [{ requestTimeStamp := now - cfg.compactionInterval, requestCount := 1 }])

/-- The store: Redis keys (the client IPs) mapped to their parsed logs. -/
abbrev Store := List (String × List Bucket)

/-- Redis `SET`: replace the value under `k`, or add the binding. -/
def storeSet (store : Store) (k : String) (v : List Bucket) : Store :=
  match store with
  | [] => [(k, v)]
  | (k', v') :: rest => if k' == k then (k, v) :: rest else (k', v') :: storeSet rest k v

/-- The whole middleware body (lines 40-86 of the source) for one request:
fetch the record for `ip`, create a fresh one-bucket log if absent,
otherwise run `evalRecord`; a store write happens only on the allow paths. -/
def customRedisRateLimiter (cfg : Config) (store : Store) (ip : String) (now : Int) :
    Outcome × Store :=
  match store.lookup ip with
  | none => (.allowed, storeSet store ip [{ requestTimeStamp := now, requestCount := 1 }])
  | some data =>
    match evalRecord cfg data now with
    | .denied => (.denied, store)
    | .errored => (.errored, store)
    | .allowed newData => (.allowed, storeSet store ip newData)

/-- Single-client view of one middleware call: the state is the record
stored under the client's key (`none` when the key is absent). -/
def rateLimitStep (cfg : Config) (s : Option (List Bucket)) (now : Int) :
    Outcome × Option (List Bucket) :=
  match s with
  | none => (.allowed, some [{ requestTimeStamp := now, requestCount := 1 }])
  | some data =>
    match evalRecord cfg data now with
    | .denied => (.denied, some data)
    | .errored => (.errored, some data)
    | .allowed newData => (.allowed, some newData)

/-- Run a sequence of middleware evaluations for the fixed client `ip`,
returning the timestamped outcome of every call and the final store. -/
def runMW (cfg : Config) (ip : String) : Store → List Int → List (Int × Outcome) × Store
  | store, [] => ([], store)
  | store, t :: ts =>
    let r := customRedisRateLimiter cfg store ip t
    let rest := runMW cfg ip r.2 ts
    ((t, r.1) :: rest.1, rest.2)

/-- Run a sequence of evaluations in the single-client view. -/
def runRL (cfg : Config) : Option (List Bucket) → List Int → List (Int × Outcome) × Option (List Bucket)
  | s, [] => ([], s)
  | s, t :: ts =>
    let r := rateLimitStep cfg s t
    let rest := runRL cfg r.2 ts
    ((t, r.1) :: rest.1, rest.2)

/-- Sum of `requestCount` over the entries with `requestTimeStamp > m`; with
`m = now - windowSize` this is exactly `totalWindowRequestsCount` of the
source. -/
def wsumAfter (data : List Bucket) (m : Int) : Int :=
  (data.filter (fun entry => m < entry.requestTimeStamp)).foldl
    (fun accumulator entry => accumulator + entry.requestCount) 0

/-- Number of Allow outcomes whose triggering timestamp lies in `[a, b)`. -/
def countAllowsIn (trace : List (Int × Outcome)) (a b : Int) : Nat :=
  trace.countP (fun e => decide (a ≤ e.1 ∧ e.1 < b ∧ e.2 = Outcome.allowed))

/-- Number of Allow outcomes in a trace. -/
def countAllows (trace : List (Int × Outcome)) : Nat :=
  trace.countP (fun e => decide (e.2 = Outcome.allowed))

/-- Checks that consecutive entries have strictly increasing timestamps. -/
def strictlyOrderedByTs : List Bucket → Bool
  | [] => true
  | [_] => true
  | a :: b :: rest =>
    (a.requestTimeStamp < b.requestTimeStamp) && strictlyOrderedByTs (b :: rest)



lemma foldl_add_eq (l : List Bucket) (c : Int) :
    l.foldl (fun accumulator entry => accumulator + entry.requestCount) c
      = c + (l.map Bucket.requestCount).sum := by
  induction l generalizing c with
  | nil => simp
  | cons b t ih => simp [ih]; ring

lemma wsumAfter_eq_sum (data : List Bucket) (m : Int) :
    wsumAfter data m
      = ((data.filter (fun e => m < e.requestTimeStamp)).map Bucket.requestCount).sum := by
  simp [wsumAfter, foldl_add_eq]

lemma wsumAfter_nil (m : Int) : wsumAfter [] m = 0 := rfl

lemma wsumAfter_cons (b : Bucket) (l : List Bucket) (m : Int) :
    wsumAfter (b :: l) m
      = (if m < b.requestTimeStamp then b.requestCount else 0) + wsumAfter l m := by
  rw [wsumAfter_eq_sum, wsumAfter_eq_sum, List.filter_cons]
  split <;> simp_all

lemma wsumAfter_append (l1 l2 : List Bucket) (m : Int) :
    wsumAfter (l1 ++ l2) m = wsumAfter l1 m + wsumAfter l2 m := by
  rw [wsumAfter_eq_sum, wsumAfter_eq_sum, wsumAfter_eq_sum, List.filter_append]
  simp

lemma wsumAfter_singleton (b : Bucket) (m : Int) :
    wsumAfter [b] m = if m < b.requestTimeStamp then b.requestCount else 0 := by
  rw [wsumAfter_cons, wsumAfter_nil]; ring

lemma wsumAfter_mono (l : List Bucket) (hc : ∀ b ∈ l, 0 ≤ b.requestCount)
    {m1 m2 : Int} (h : m1 ≤ m2) : wsumAfter l m2 ≤ wsumAfter l m1 := by
  induction l with
  | nil => simp [wsumAfter_nil]
  | cons b t ih =>
    have hb : 0 ≤ b.requestCount := hc b (by simp)
    have ht := ih (fun x hx => hc x (by simp [hx]))
    rw [wsumAfter_cons, wsumAfter_cons]
    have : (if m2 < b.requestTimeStamp then b.requestCount else 0)
        ≤ (if m1 < b.requestTimeStamp then b.requestCount else 0) := by
      split <;> split <;> omega
    omega

lemma wsumAfter_nonneg (l : List Bucket) (hc : ∀ b ∈ l, 0 ≤ b.requestCount)
    (m : Int) : 0 ≤ wsumAfter l m := by
  induction l with
  | nil => simp [wsumAfter_nil]
  | cons b t ih =>
    have hb : 0 ≤ b.requestCount := hc b (by simp)
    have ht := ih (fun x hx => hc x (by simp [hx]))
    rw [wsumAfter_cons]
    have : 0 ≤ (if m < b.requestTimeStamp then b.requestCount else 0) := by
      split <;> omega
    omega

lemma evalRecord_cases (cfg : Config) (data : List Bucket) (now : Int) :
    evalRecord cfg data now =
      if cfg.maxRequests ≤ wsumAfter data (now - cfg.windowSize) then .denied
      else
        match data.getLast? with
        | none => .errored
        | some last =>
          if now - cfg.compactionInterval < last.requestTimeStamp then
            .allowed (data.dropLast ++ [{ last with requestCount := last.requestCount + 1 }])
          else
            .allowed (data ++ [{ requestTimeStamp := now - cfg.compactionInterval, requestCount := 1 }]) := rfl

lemma evalRecord_denied_iff (cfg : Config) (data : List Bucket) (now : Int) :
    evalRecord cfg data now = .denied
      ↔ cfg.maxRequests ≤ wsumAfter data (now - cfg.windowSize) := by
  rw [evalRecord_cases]
  split
  · simp_all
  · rename_i hlt
    constructor
    · intro hcon
      split at hcon
      · simp at hcon
      · split at hcon <;> simp at hcon
    · intro hcon
      exact absurd hcon hlt

lemma evalRecord_allowed (cfg : Config) (data : List Bucket) (now : Int)
    (d : List Bucket) (h : evalRecord cfg data now = .allowed d) :
    wsumAfter data (now - cfg.windowSize) < cfg.maxRequests ∧
    ∃ rest last, data = rest ++ [last] ∧
      ((now - cfg.compactionInterval < last.requestTimeStamp ∧
          d = rest ++ [{ last with requestCount := last.requestCount + 1 }]) ∨
       (last.requestTimeStamp ≤ now - cfg.compactionInterval ∧
          d = data ++ [{ requestTimeStamp := now - cfg.compactionInterval, requestCount := 1 }])) := by
  rw [evalRecord_cases] at h
  split at h
  · simp at h
  · rename_i hlt
    refine ⟨by omega, ?_⟩
    split at h
    · simp at h
    · rename_i last heq
      have hdec : data.dropLast ++ [last] = data :=
        List.dropLast_append_getLast? last heq
      refine ⟨data.dropLast, last, hdec.symm, ?_⟩
      split at h
      · rename_i hcmp
        simp only [RecordResult.allowed.injEq] at h
        exact Or.inl ⟨hcmp, h.symm⟩
      · rename_i hcmp
        simp only [RecordResult.allowed.injEq] at h
        exact Or.inr ⟨by omega, h.symm⟩

lemma evalRecord_errored (cfg : Config) (data : List Bucket) (now : Int)
    (h : evalRecord cfg data now = .errored) : data = [] := by
  rw [evalRecord_cases] at h
  split at h
  · simp at h
  · split at h
    · rename_i heq
      exact List.getLast?_eq_none_iff.mp heq
    · split at h <;> simp at h

lemma evalRecord_errored_of_nil (cfg : Config) (now : Int)
    (h : ¬ cfg.maxRequests ≤ 0) : evalRecord cfg [] now = .errored := by
  rw [evalRecord_cases, wsumAfter_nil]
  simp [h]

/-- Log stored in the single-client state (`[]` when the key is absent). -/
def stateLog (s : Option (List Bucket)) : List Bucket := s.getD []

/-- All counts in the stored log are nonnegative. -/
def goodCounts (s : Option (List Bucket)) : Prop :=
  ∀ b ∈ stateLog s, 0 ≤ b.requestCount

lemma rateLimitStep_state_of_not_allowed (cfg : Config) (s : Option (List Bucket)) (t : Int)
    (h : (rateLimitStep cfg s t).1 ≠ .allowed) : (rateLimitStep cfg s t).2 = s := by
  cases s with
  | none => simp [rateLimitStep] at h
  | some data =>
    rcases hE : evalRecord cfg data t with _ | _ | d <;>
      simp [rateLimitStep, hE] at h ⊢

lemma wsum_step_ge (cfg : Config) (s : Option (List Bucket)) (t m : Int) :
    wsumAfter (stateLog s) m ≤ wsumAfter (stateLog (rateLimitStep cfg s t).2) m := by
  cases s with
  | none =>
    simp only [rateLimitStep, stateLog, Option.getD]
    rw [wsumAfter_nil, wsumAfter_singleton]
    dsimp only
    split <;> omega
  | some data =>
    rcases hE : evalRecord cfg data t with _ | _ | d
    · simp [rateLimitStep, hE, stateLog]
    · simp [rateLimitStep, hE, stateLog]
    · simp only [rateLimitStep, hE, stateLog, Option.getD]
      obtain ⟨-, rest, last, hdata, hcase⟩ := evalRecord_allowed cfg data t d hE
      rcases hcase with ⟨hcmp, hd⟩ | ⟨hcmp, hd⟩
      · subst hd
        rw [hdata, wsumAfter_append, wsumAfter_append,
            wsumAfter_singleton, wsumAfter_singleton]
        dsimp only
        split <;> omega
      · subst hd
        rw [wsumAfter_append, wsumAfter_singleton]
        dsimp only
        split <;> omega

lemma wsum_step_allow (cfg : Config) (s : Option (List Bucket)) (t : Int)
    (hI : 0 ≤ cfg.compactionInterval)
    (h : (rateLimitStep cfg s t).1 = .allowed) (m : Int) (hm : m < t - cfg.compactionInterval) :
    wsumAfter (stateLog s) m + 1 ≤ wsumAfter (stateLog (rateLimitStep cfg s t).2) m := by
  cases s with
  | none =>
    simp only [rateLimitStep, stateLog, Option.getD]
    rw [wsumAfter_nil, wsumAfter_singleton]
    have : m < t := by omega
    simp [this]
  | some data =>
    rcases hE : evalRecord cfg data t with _ | _ | d
    · simp [rateLimitStep, hE] at h
    · simp [rateLimitStep, hE] at h
    · simp only [rateLimitStep, hE, stateLog, Option.getD]
      obtain ⟨-, rest, last, hdata, hcase⟩ := evalRecord_allowed cfg data t d hE
      rcases hcase with ⟨hcmp, hd⟩ | ⟨hcmp, hd⟩
      · subst hd
        rw [hdata, wsumAfter_append, wsumAfter_append,
            wsumAfter_singleton, wsumAfter_singleton]
        have hts : m < last.requestTimeStamp := by omega
        simp only [hts, if_true]
        omega
      · subst hd
        rw [wsumAfter_append, wsumAfter_singleton]
        simp only [hm, if_true]
        omega

lemma step_allowed_lt (cfg : Config) (data : List Bucket) (t : Int)
    (h : (rateLimitStep cfg (some data) t).1 = .allowed) :
    wsumAfter data (t - cfg.windowSize) < cfg.maxRequests := by
  rcases hE : evalRecord cfg data t with _ | _ | d
  · simp [rateLimitStep, hE] at h
  · simp [rateLimitStep, hE] at h
  · exact (evalRecord_allowed cfg data t d hE).1

lemma goodCounts_step (cfg : Config) (s : Option (List Bucket)) (t : Int)
    (hg : goodCounts s) : goodCounts (rateLimitStep cfg s t).2 := by
  cases s with
  | none =>
    intro b hb
    simp only [rateLimitStep, stateLog, Option.getD] at hb
    simp only [List.mem_singleton] at hb
    subst hb
    norm_num
  | some data =>
    rcases hE : evalRecord cfg data t with _ | _ | d
    · simpa [rateLimitStep, hE] using hg
    · simpa [rateLimitStep, hE] using hg
    · intro b hb
      simp only [rateLimitStep, hE, stateLog, Option.getD] at hb
      obtain ⟨-, rest, last, hdata, hcase⟩ := evalRecord_allowed cfg data t d hE
      have hglog : ∀ x ∈ data, 0 ≤ x.requestCount := by
        intro x hx
        exact hg x (by simpa [stateLog] using hx)
      have hlast : 0 ≤ last.requestCount :=
        hglog last (by rw [hdata]; simp)
      rcases hcase with ⟨hcmp, hd⟩ | ⟨hcmp, hd⟩
      · subst hd
        rcases List.mem_append.mp hb with hr | hr
        · exact hglog b (by rw [hdata]; exact List.mem_append.mpr (Or.inl hr))
        · simp only [List.mem_singleton] at hr
          subst hr
          simpa using by omega
      · subst hd
        rcases List.mem_append.mp hb with hr | hr
        · exact hglog b hr
        · simp only [List.mem_singleton] at hr
          subst hr
          norm_num

lemma step_length (cfg : Config) (s : Option (List Bucket)) (t : Int) :
    (stateLog (rateLimitStep cfg s t).2).length
      ≤ (stateLog s).length + (if (rateLimitStep cfg s t).1 = .allowed then 1 else 0) := by
  cases s with
  | none => simp [rateLimitStep, stateLog]
  | some data =>
    rcases hE : evalRecord cfg data t with _ | _ | d
    · simp [rateLimitStep, hE, stateLog]
    · simp [rateLimitStep, hE, stateLog]
    · simp only [rateLimitStep, hE, stateLog, Option.getD]
      obtain ⟨-, rest, last, hdata, hcase⟩ := evalRecord_allowed cfg data t d hE
      rcases hcase with ⟨hcmp, hd⟩ | ⟨hcmp, hd⟩
      · subst hd
        rw [hdata]
        simp
      · subst hd
        simp

lemma countAllowsIn_cons (e : Int × Outcome) (l : List (Int × Outcome)) (a b : Int) :
    countAllowsIn (e :: l) a b
      = countAllowsIn l a b
        + (if a ≤ e.1 ∧ e.1 < b ∧ e.2 = Outcome.allowed then 1 else 0) := by
  rw [countAllowsIn, countAllowsIn, List.countP_cons]
  by_cases h : a ≤ e.1 ∧ e.1 < b ∧ e.2 = Outcome.allowed <;> simp [h]

lemma countAllows_cons (e : Int × Outcome) (l : List (Int × Outcome)) :
    countAllows (e :: l) = countAllows l + (if e.2 = Outcome.allowed then 1 else 0) := by
  rw [countAllows, countAllows, List.countP_cons]
  by_cases h : e.2 = Outcome.allowed <;> simp [h]

lemma runRL_length (cfg : Config) :
    ∀ (ts : List Int) (s : Option (List Bucket)),
      (stateLog (runRL cfg s ts).2).length
        ≤ (stateLog s).length + countAllows (runRL cfg s ts).1 := by
  intro ts
  induction ts with
  | nil => intro s; simp [runRL, countAllows]
  | cons t ts ih =>
    intro s
    simp only [runRL]
    have hstep := step_length cfg s t
    have h2 := ih (rateLimitStep cfg s t).2
    rw [countAllows_cons]
    by_cases hA : (rateLimitStep cfg s t).1 = Outcome.allowed <;>
      simp only [hA, if_true, if_false, if_pos, if_neg, not_false_iff] at hstep ⊢ <;>
      omega

lemma runRL_bound_aux (cfg : Config) (h1 : 1 ≤ cfg.maxRequests)
    (h2 : 0 ≤ cfg.compactionInterval) (a : Int) :
    ∀ (ts : List Int) (s : Option (List Bucket)), goodCounts s →
      1 ≤ countAllowsIn (runRL cfg s ts).1 a (a + cfg.windowSize - cfg.compactionInterval) →
      (countAllowsIn (runRL cfg s ts).1 a (a + cfg.windowSize - cfg.compactionInterval) : Int)
        + wsumAfter (stateLog s) (a - cfg.compactionInterval - 1) ≤ cfg.maxRequests := by
  intro ts
  induction ts with
  | nil =>
    intro s hg hpos
    simp [runRL, countAllowsIn] at hpos
  | cons t ts ih =>
    intro s hg hpos
    simp only [runRL] at hpos ⊢
    rw [countAllowsIn_cons] at hpos ⊢
    by_cases hp : a ≤ t ∧ t < a + cfg.windowSize - cfg.compactionInterval
        ∧ (rateLimitStep cfg s t).1 = Outcome.allowed
    · simp only [hp, if_true] at hpos ⊢
      rcases Nat.eq_zero_or_pos
          (countAllowsIn (runRL cfg (rateLimitStep cfg s t).2 ts).1 a
            (a + cfg.windowSize - cfg.compactionInterval)) with hc0 | hc1
      · rw [hc0]
        cases s with
        | none =>
          have hnil : wsumAfter (stateLog none) (a - cfg.compactionInterval - 1) = 0 :=
            wsumAfter_nil _
          rw [hnil]
          push_cast
          omega
        | some data =>
          have hlt := step_allowed_lt cfg data t hp.2.2
          have hmono := wsumAfter_mono data hg
            (show t - cfg.windowSize ≤ a - cfg.compactionInterval - 1 by omega)
          have hsl : stateLog (some data) = data := rfl
          rw [hsl]
          push_cast
          omega
      · have hIH := ih (rateLimitStep cfg s t).2 (goodCounts_step cfg s t hg) hc1
        have hstep := wsum_step_allow cfg s t h2 hp.2.2
          (a - cfg.compactionInterval - 1) (by omega)
        push_cast at hIH ⊢
        omega
    · simp only [hp, if_false] at hpos ⊢
      rw [Nat.add_zero] at hpos ⊢
      have hIH := ih (rateLimitStep cfg s t).2 (goodCounts_step cfg s t hg) hpos
      have hge := wsum_step_ge cfg s t (a - cfg.compactionInterval - 1)
      omega

lemma runRL_allow_window_bound (cfg : Config) (h1 : 1 ≤ cfg.maxRequests)
    (h2 : 0 ≤ cfg.compactionInterval) (ts : List Int) (a : Int) :
    (countAllowsIn (runRL cfg none ts).1 a
        (a + cfg.windowSize - cfg.compactionInterval) : Int) ≤ cfg.maxRequests := by
  rcases Nat.eq_zero_or_pos
      (countAllowsIn (runRL cfg none ts).1 a
        (a + cfg.windowSize - cfg.compactionInterval)) with h0 | hpos
  · rw [h0]; push_cast; omega
  · have hgood : goodCounts (none : Option (List Bucket)) := by
      intro b hb
      simp [stateLog] at hb
    have := runRL_bound_aux cfg h1 h2 a ts none hgood hpos
    have hnil : wsumAfter (stateLog none) (a - cfg.compactionInterval - 1) = 0 :=
      wsumAfter_nil _
    omega

lemma lookup_storeSet_self (store : Store) (k : String) (v : List Bucket) :
    (storeSet store k v).lookup k = some v := by
  induction store with
  | nil => simp [storeSet, List.lookup]
  | cons p rest ih =>
    rcases p with ⟨k', v'⟩
    by_cases h : k' = k
    · subst h
      simp [storeSet, List.lookup]
    · have hne : k ≠ k' := fun hh => h hh.symm
      have hb : (k == k') = false := beq_eq_false_iff_ne.mpr hne
      simp [storeSet, List.lookup, h, hb, ih]

lemma customRedis_fst (cfg : Config) (store : Store) (ip : String) (now : Int) :
    (customRedisRateLimiter cfg store ip now).1 = (rateLimitStep cfg (store.lookup ip) now).1 := by
  rcases h : store.lookup ip with _ | data
  · simp [customRedisRateLimiter, rateLimitStep, h]
  · rcases hE : evalRecord cfg data now with _ | _ | d <;>
      simp [customRedisRateLimiter, rateLimitStep, h, hE]

lemma customRedis_snd (cfg : Config) (store : Store) (ip : String) (now : Int) :
    ((customRedisRateLimiter cfg store ip now).2).lookup ip
      = (rateLimitStep cfg (store.lookup ip) now).2 := by
  rcases h : store.lookup ip with _ | data
  · simp [customRedisRateLimiter, rateLimitStep, h, lookup_storeSet_self]
  · rcases hE : evalRecord cfg data now with _ | _ | d <;>
      simp [customRedisRateLimiter, rateLimitStep, h, hE, lookup_storeSet_self]

lemma runMW_eq_runRL (cfg : Config) (ip : String) :
    ∀ (ts : List Int) (store : Store),
      (runMW cfg ip store ts).1 = (runRL cfg (store.lookup ip) ts).1
      ∧ ((runMW cfg ip store ts).2).lookup ip = (runRL cfg (store.lookup ip) ts).2 := by
  intro ts
  induction ts with
  | nil => intro store; simp [runMW, runRL]
  | cons t ts ih =>
    intro store
    simp only [runMW, runRL]
    obtain ⟨ht, hs⟩ := ih (customRedisRateLimiter cfg store ip t).2
    refine ⟨?_, ?_⟩
    · rw [ht, customRedis_fst, customRedis_snd]
    · rw [hs, customRedis_snd]

/-- Element of a parsed JSON array as the middleware can encounter it: the
JSON value `null`, a JSON number, or an object carrying integer
`requestTimeStamp` / `requestCount` fields.  This is the subset of JSON
values the verification exercises; the JavaScript semantics used below are:
property access on `null` throws a TypeError, property access on a number
yields `undefined`, `undefined > x` is `false`, and `acc + undefined` is
`NaN` (modelled by `none`). -/
inductive JEntry where
  | null
  | num (n : Int)
  | obj (requestTimeStamp : Int) (requestCount : Int)
deriving DecidableEq, Repr

/-- Outcome of `JSON.parse` on the stored string: the parse threw, the
parsed value is not an array (so `data.filter` throws), or it is an array
of entries. -/
inductive ParsedRecord where
  | parseError
  | nonArrayValue
  | arrayValue (entries : List JEntry)
deriving DecidableEq, Repr

/-- Result of the record-processing part of the middleware on a parsed
JSON array. -/
inductive JsonRecordResult where
  | denied
  | errored
  | allowed (newData : List JEntry)
deriving DecidableEq, Repr

/-- Is this entry the JSON value `null`? -/
def JEntry.isNull : JEntry → Bool
  | .null => true
  | _ => false

/-- Lines 68-79 of the source on a parsed JSON array: read
`data[data.length - 1]`, compare its `requestTimeStamp` with the cutoff
(`undefined > cutoff` is `false` for a number entry, and the access throws
for `null` or an empty array), and either increment in place or push
`{requestTimeStamp: now - compactionInterval, requestCount: 1}` (the
timestamp is shifted because `moment#subtract` mutated the current time in
place). -/
def jsonMutate (cfg : Config) (data : List JEntry) (now : Int) : JsonRecordResult :=
  match data.getLast? with
  | none => .errored
  | some .null => .errored
  | some (.num _) =>
    .allowed (data ++ [.obj (now - cfg.compactionInterval) 1])
  | some (.obj t c) =>
    if now - cfg.compactionInterval < t then
      .allowed (data.dropLast ++ [.obj t (c + 1)])
    else
      .allowed (data ++ [.obj (now - cfg.compactionInterval) 1])

/-- Lines 57-79 of the source on a parsed JSON array.  The filter callback
dereferences each entry, so an array containing `null` throws; number
entries are silently dropped by the window filter (`undefined >
windowStart` is `false`); the reduce accumulator is `none` once a
non-object sneaks into the window (NaN), and `NaN >= maxRequests` is
`false`, so such data is never denied. -/
def jsonEvalRecord (cfg : Config) (data : List JEntry) (now : Int) : JsonRecordResult :=
  if data.any JEntry.isNull then .errored
  else
    let windowStartTimestamp := now - cfg.windowSize
    let requestsWithinWindow := data.filter (fun e =>
      match e with
      | .obj t _ => decide (windowStartTimestamp < t)
      | _ => false)
    let total : Option Int := requestsWithinWindow.foldl (fun acc e =>
      match acc, e with
      | some accv, .obj _ c => some (accv + c)
      | _, _ => none) (some 0)
    match total with
    | some tot => if cfg.maxRequests ≤ tot then .denied else jsonMutate cfg data now
    | none => jsonMutate cfg data now

/-- One middleware call where the store contents are tracked at the level
of `JSON.parse` outcomes; the catch block turns every thrown error into
`next(error)` with no store write. -/
def jsonStep (cfg : Config) (stored : Option ParsedRecord) (now : Int) :
    Outcome × Option ParsedRecord :=
  match stored with
  | none => (.allowed, some (.arrayValue [.obj now 1]))
  | some .parseError => (.errored, some .parseError)
  | some .nonArrayValue => (.errored, some .nonArrayValue)
  | some (.arrayValue data) =>
    match jsonEvalRecord cfg data now with
    | .denied => (.denied, some (.arrayValue data))
    | .errored => (.errored, some (.arrayValue data))
    | .allowed newData => (.allowed, some (.arrayValue newData))

lemma jsonMutate_ne_errored (cfg : Config) (data : List JEntry) (now : Int)
    (hne : data ≠ []) (hnn : JEntry.null ∉ data) :
    jsonMutate cfg data now ≠ .errored := by
  rcases hL : data.getLast? with _ | last
  · exact absurd (List.getLast?_eq_none_iff.mp hL) hne
  · have hmem : last ∈ data := by
      have := List.dropLast_append_getLast? last hL
      rw [← this]
      simp
    cases last with
    | null => exact absurd hmem hnn
    | num n => simp [jsonMutate, hL]
    | obj t c =>
      simp only [jsonMutate, hL]
      split <;> simp

lemma jsonEvalRecord_errored_iff (cfg : Config) (data : List JEntry) (now : Int)
    (h : 0 < cfg.maxRequests) :
    jsonEvalRecord cfg data now = .errored ↔ (data = [] ∨ JEntry.null ∈ data) := by
  by_cases hnull : data.any JEntry.isNull
  · have hmem : JEntry.null ∈ data := by
      rcases List.any_eq_true.mp hnull with ⟨x, hx, hpx⟩
      cases x <;> simp [JEntry.isNull] at hpx
      · exact hx
    simp [jsonEvalRecord, hnull, hmem]
  · have hnn : JEntry.null ∉ data := by
      intro hm
      exact hnull (List.any_eq_true.mpr ⟨JEntry.null, hm, rfl⟩)
    cases data with
    | nil =>
      have : jsonEvalRecord cfg [] now = .errored := by
        simp only [jsonEvalRecord]
        norm_num
        simp [jsonMutate, show ¬ cfg.maxRequests ≤ 0 by omega]
      simp [this]
    | cons e rest =>
      have hne : e :: rest ≠ [] := by simp
      have hmut := jsonMutate_ne_errored cfg (e :: rest) now hne hnn
      have : jsonEvalRecord cfg (e :: rest) now ≠ .errored := by
        unfold jsonEvalRecord
        rw [if_neg hnull]
        dsimp only
        split
        · split
          · simp
          · exact hmut
        · exact hmut
      simp [this, hnn]

set_option maxRecDepth 10000 in
/-- Claim C1 (counterexample): the claim that the number of Allow decisions
whose triggering timestamps fall inside any windowSize-length interval never
exceeds maxRequests is false.  With the source constants (maxRequests = 110,
windowSize = 86400 s), one request at t = 0, 109 requests at t = 3600 and
110 requests at t = 86400 are all allowed, so the interval [3600, 90000) of
length exactly windowSize contains 219 > 110 allowed requests.  Buckets are
recorded at the start of their compaction interval, so they leave the
counted window up to compactionInterval earlier than the requests they
describe. -/
theorem c1_counterexample :
    defaultConfig.maxRequests = 110 ∧
    (3600 : Int) + defaultConfig.windowSize = 90000 ∧
    110 < countAllowsIn (runMW defaultConfig "client" []
        ((0 : Int) :: (List.replicate 109 (3600 : Int) ++ List.replicate 110 (86400 : Int)))).1
      3600 90000 := by
  decide

/-- Claim C1 (amended): for a single client key evaluated sequentially from
an absent record, the number of Allow decisions whose triggering timestamps
fall inside any interval of length windowSize minus compactionInterval
never exceeds maxRequests (for the source constants: any 23-hour interval),
provided maxRequests is at least 1 and compactionInterval is nonnegative, as
in the source configuration. -/
theorem c1_allow_bound (cfg : Config) (store : Store) (ip : String)
    (times : List Int) (a : Int)
    (h1 : 1 ≤ cfg.maxRequests) (h2 : 0 ≤ cfg.compactionInterval)
    (h3 : store.lookup ip = none) :
    (countAllowsIn (runMW cfg ip store times).1 a
        (a + cfg.windowSize - cfg.compactionInterval) : Int) ≤ cfg.maxRequests := by
  have hcorr := (runMW_eq_runRL cfg ip times store).1
  rw [hcorr, h3]
  exact runRL_allow_window_bound cfg h1 h2 times a

/-- Claim C1 (witness): the amended bound instantiated at the source
configuration, an empty store and a single request at time 0. -/
theorem c1_allow_bound_witness :
    1 ≤ defaultConfig.maxRequests ∧ 0 ≤ defaultConfig.compactionInterval ∧
    List.lookup "client" ([] : Store) = none ∧
    (countAllowsIn (runMW defaultConfig "client" [] [0]).1 0
        (0 + defaultConfig.windowSize - defaultConfig.compactionInterval) : Int)
      ≤ defaultConfig.maxRequests :=
  ⟨by decide, by decide, by decide,
    c1_allow_bound defaultConfig [] "client" [0] 0 (by decide) (by decide) (by decide)⟩

/-- Claim C2: on an existing log whose last bucket has aged past the
compaction interval, the bucket appended by an allowed request at t = 3700 s
carries requestTimeStamp 100 = 3700 - compactionInterval, not 3700 as the
claim states: `moment#subtract` mutates `currentRequestTime` in place on
line 69 of the source, so the entry pushed on lines 75-78 uses the already
shifted time.  The stored log for the spec scenario becomes
[(0, 2), (100, 1)] instead of [(0, 2), (3700, 1)]. -/
theorem c2_append_timestamp_bug :
    evalRecord defaultConfig [{ requestTimeStamp := 0, requestCount := 2 }] 3700
      = .allowed [{ requestTimeStamp := 0, requestCount := 2 },
                  { requestTimeStamp := 100, requestCount := 1 }] ∧
    (100 : Int) = 3700 - defaultConfig.compactionInterval := by
  decide

/-- Claim C3 (counterexample): the stored log can exceed
ceil(windowSize / compactionInterval) + 1 = 25 buckets, because the code
never deletes stale buckets: 26 requests spaced two hours apart leave 26
buckets in the store. -/
theorem c3_counterexample :
    defaultConfig.windowSize / defaultConfig.compactionInterval + 1 = 25 ∧
    25 < (((runMW defaultConfig "client" []
        ((List.range 26).map (fun k => (7200 : Int) * k))).2.lookup "client").getD []).length := by
  decide

/-- Claim C3 (amended): the number of buckets stored for a client never
exceeds the number of Allow decisions since the key was first seen; no
bound in terms of windowSize and compactionInterval alone holds, since
buckets are never pruned. -/
theorem c3_bucket_count_le_allows (cfg : Config) (store : Store) (ip : String)
    (times : List Int) (h : store.lookup ip = none) :
    (((runMW cfg ip store times).2.lookup ip).getD []).length
      ≤ countAllows (runMW cfg ip store times).1 := by
  obtain ⟨ht, hs⟩ := runMW_eq_runRL cfg ip times store
  rw [ht, hs, h]
  have hlen := runRL_length cfg times none
  simpa [stateLog] using hlen

/-- Claim C3 (witness): the amended bound instantiated at the source
configuration, an empty store and two requests. -/
theorem c3_bucket_count_witness :
    List.lookup "client" ([] : Store) = none ∧
    (((runMW defaultConfig "client" [] [0, 3600]).2.lookup "client").getD []).length
      ≤ countAllows (runMW defaultConfig "client" [] [0, 3600]).1 :=
  ⟨by decide, c3_bucket_count_le_allows defaultConfig [] "client" [0, 3600] (by decide)⟩

set_option maxRecDepth 10000 in
/-- Claim C4: for every stored log and every current time, the evaluation
denies exactly when the sum of requestCount over the buckets with
requestTimeStamp strictly greater than now - windowSize is at least
maxRequests; concretely, of 111 same-window requests after a cold start the
first 110 are allowed and the 111th is denied. -/
theorem c4_deny_iff_window_sum :
    (∀ (cfg : Config) (data : List Bucket) (now : Int),
      evalRecord cfg data now = .denied
        ↔ cfg.maxRequests ≤ wsumAfter data (now - cfg.windowSize)) ∧
    countAllows (runMW defaultConfig "client" [] (List.replicate 111 (0 : Int))).1 = 110 ∧
    ((runMW defaultConfig "client" [] (List.replicate 111 (0 : Int))).1.getLast?).map Prod.snd
      = some Outcome.denied :=
  ⟨evalRecord_denied_iff, by decide, by decide⟩

/-- Claim C5: whenever the middleware's decision is Deny, no store write is
performed: the store after the evaluation is the very store read, so the
stored log for the client key is unchanged. -/
theorem c5_no_write_on_deny (cfg : Config) (store : Store) (ip : String) (now : Int)
    (h : (customRedisRateLimiter cfg store ip now).1 = .denied) :
    (customRedisRateLimiter cfg store ip now).2 = store := by
  rcases hL : store.lookup ip with _ | data
  · simp [customRedisRateLimiter, hL] at h
  · rcases hE : evalRecord cfg data now with _ | _ | d <;>
      simp [customRedisRateLimiter, hL, hE] at h ⊢

/-- Claim C5 (witness): a client with 110 requests already in the window is
denied and the store is returned untouched. -/
theorem c5_no_write_on_deny_witness :
    (customRedisRateLimiter defaultConfig
        [("client", [{ requestTimeStamp := 0, requestCount := 110 }])] "client" 0).1
      = .denied ∧
    (customRedisRateLimiter defaultConfig
        [("client", [{ requestTimeStamp := 0, requestCount := 110 }])] "client" 0).2
      = [("client", [{ requestTimeStamp := 0, requestCount := 110 }])] :=
  ⟨by decide, c5_no_write_on_deny defaultConfig
      [("client", [{ requestTimeStamp := 0, requestCount := 110 }])] "client" 0 (by decide)⟩

/-- Claim C6: evaluating a client key with no stored record always yields
Allow, and the record written back is the single bucket
(requestTimeStamp = now, requestCount = 1). -/
theorem c6_cold_start (cfg : Config) (store : Store) (ip : String) (now : Int)
    (h : store.lookup ip = none) :
    customRedisRateLimiter cfg store ip now
      = (.allowed, storeSet store ip [{ requestTimeStamp := now, requestCount := 1 }]) := by
  simp [customRedisRateLimiter, h]

/-- Claim C6 (witness): the cold-start behaviour at an empty store and
time 7. -/
theorem c6_cold_start_witness :
    List.lookup "client" ([] : Store) = none ∧
    customRedisRateLimiter defaultConfig [] "client" 7
      = (.allowed, storeSet [] "client" [{ requestTimeStamp := 7, requestCount := 1 }]) :=
  ⟨by decide, c6_cold_start defaultConfig [] "client" 7 (by decide)⟩

/-- Claim C7: after the allowed sequence [0, 3600] from a cold start, the
stored log is [(0, 1), (0, 1)]: the appended bucket duplicates its
predecessor's timestamp (a consequence of the in-place `moment#subtract`),
so the buckets are not strictly ordered by startTimestamp as the claim
requires (counts are still at least 1). -/
theorem c7_duplicate_timestamps :
    ((runMW defaultConfig "client" [] [0, 3600]).2).lookup "client"
      = some [{ requestTimeStamp := 0, requestCount := 1 },
              { requestTimeStamp := 0, requestCount := 1 }] ∧
    strictlyOrderedByTs [{ requestTimeStamp := 0, requestCount := 1 },
              { requestTimeStamp := 0, requestCount := 1 }] = false := by
  decide

/-- Claim C8 (amended): the evaluation errors (yielding neither Allow nor
Deny, and leaving the stored value unchanged) exactly when JSON.parse
throws, the parsed value is not an array, or the array is empty or contains
null; a stored value that is valid JSON but still not a valid log - such as
an array of numbers - is not rejected and can be processed normally. -/
theorem c8_error_characterization (cfg : Config) (st : ParsedRecord) (now : Int)
    (h : 0 < cfg.maxRequests) :
    ((jsonStep cfg (some st) now).1 = .errored ↔
      (st = .parseError ∨ st = .nonArrayValue ∨
        ∃ d, st = .arrayValue d ∧ (d = [] ∨ JEntry.null ∈ d))) ∧
    ((jsonStep cfg (some st) now).1 = .errored →
      (jsonStep cfg (some st) now).2 = some st) := by
  cases st with
  | parseError => simp [jsonStep]
  | nonArrayValue => simp [jsonStep]
  | arrayValue data =>
    have hiff := jsonEvalRecord_errored_iff cfg data now h
    have hfst : (jsonStep cfg (some (.arrayValue data)) now).1 = .errored
        ↔ jsonEvalRecord cfg data now = .errored := by
      rcases hE : jsonEvalRecord cfg data now with _ | _ | d <;>
        simp [jsonStep, hE]
    have hsnd : jsonEvalRecord cfg data now = .errored →
        (jsonStep cfg (some (.arrayValue data)) now).2 = some (.arrayValue data) := by
      intro hE
      simp [jsonStep, hE]
    refine ⟨?_, fun he => hsnd (hfst.mp he)⟩
    rw [hfst, hiff]
    constructor
    · intro hd
      exact Or.inr (Or.inr ⟨data, rfl, hd⟩)
    · rintro (hc | hc | ⟨d, hd, hcond⟩)
      · simp at hc
      · simp at hc
      · obtain rfl : data = d := by injection hd
        exact hcond

/-- Claim C8 (witness): the characterization instantiated at a stored value
on which JSON.parse throws: the evaluation errors and the store keeps the
unparseable value. -/
theorem c8_error_characterization_witness :
    (0 : Int) < defaultConfig.maxRequests ∧
    (((jsonStep defaultConfig (some .parseError) 0).1 = .errored ↔
      (ParsedRecord.parseError = .parseError ∨ ParsedRecord.parseError = .nonArrayValue ∨
        ∃ d, ParsedRecord.parseError = .arrayValue d ∧ (d = [] ∨ JEntry.null ∈ d))) ∧
    ((jsonStep defaultConfig (some .parseError) 0).1 = .errored →
      (jsonStep defaultConfig (some .parseError) 0).2 = some .parseError)) :=
  ⟨by decide, c8_error_characterization defaultConfig .parseError 0 (by decide)⟩

/-- Claim C8 (counterexample): a stored value that parses to the JSON array
[1, 2] - not a valid log - does not surface as an error: the evaluation
yields Allow and writes the malformed entries back with a fresh bucket
appended, contradicting the claim that unparseable-as-log values always
fail with a StoreError. -/
theorem c8_counterexample :
    jsonStep defaultConfig (some (.arrayValue [.num 1, .num 2])) 86400
      = (.allowed, some (.arrayValue [.num 1, .num 2, .obj 82800 1])) := by
  decide

/-- Claim C9: the middleware performs no client-key validation: with the
empty string as client key it does not fail fast but runs the ordinary
quota evaluation keyed on "", returning Allow and writing a log under the
empty-string key. -/
theorem c9_empty_key_processed :
    customRedisRateLimiter defaultConfig [] "" 0
      = (.allowed, [("", [{ requestTimeStamp := 0, requestCount := 1 }])]) := by
  decide

/-- Claim C10: when the stored value parses to an empty array, the
evaluation yields neither Allow nor Deny: reading the last bucket of the
empty log fails (`data[data.length - 1]` is undefined and the field access
throws), the catch block forwards the error, and the store is left
unchanged.  The positivity hypothesis reflects maxRequests = 110 > 0 in the
source; were maxRequests nonpositive, the deny check would fire first. -/
theorem c10_empty_log_errors (cfg : Config) (store : Store) (ip : String) (now : Int)
    (h1 : 0 < cfg.maxRequests) (h2 : store.lookup ip = some ([] : List Bucket)) :
    (customRedisRateLimiter cfg store ip now).1 = .errored ∧
    (customRedisRateLimiter cfg store ip now).2 = store := by
  have hE : evalRecord cfg [] now = .errored :=
    evalRecord_errored_of_nil cfg now (by omega)
  simp [customRedisRateLimiter, h2, hE]

/-- Claim C10 (witness): the empty-log behaviour at the source
configuration. -/
theorem c10_empty_log_errors_witness :
    (0 : Int) < defaultConfig.maxRequests ∧
    List.lookup "client" [("client", ([] : List Bucket))] = some ([] : List Bucket) ∧
    ((customRedisRateLimiter defaultConfig [("client", [])] "client" 5).1 = .errored ∧
     (customRedisRateLimiter defaultConfig [("client", [])] "client" 5).2
       = [("client", [])]) :=
  ⟨by decide, by decide,
    c10_empty_log_errors defaultConfig [("client", [])] "client" 5 (by decide) (by decide)⟩

end RateLimiterSpec
